import Mathlib

/-!
Shallow embedding of the scan-state reconciliation and caching engine of the
actions-guard-hub repository (src/scanner_core.py and src/github_client.py),
together with proofs about the claims of its specification.

Python strings are modelled by Lean strings; the Python string operations used
by the code (split, startswith, replace, rstrip, basename) are re-implemented
on the underlying character lists so that every definition is executable by the
kernel.  Python dictionaries (which preserve insertion order and update keys in
place) are modelled by association lists with first-occurrence lookup and
in-place update.  Python None is modelled by Option.none; a JSON null inside a
sha list is an Option.none element.  The filesystem (Path.exists) is modelled
by a boolean oracle on path strings, and the external collaborators (GitHub
API, AI model, report renderer) by oracle fields of an environment record,
mirroring the fact that each of those Python functions catches its own
exceptions and returns None / a result dictionary.
-/

namespace ActionsGuardHub

/-! ## Python string primitives on character lists -/

/-- Python str.split with a single-character separator: splits on every
occurrence, keeping empty pieces. -/
def splitOnChar (c : Char) : List Char → List (List Char)
  | [] => [[]]
  | x :: xs =>
    if x = c then [] :: splitOnChar c xs
    else
      match splitOnChar c xs with
      | ys :: rest => (x :: ys) :: rest
      | [] => [[x]]

/-- Python str.split with a single-character separator, on strings. -/
def pySplit (s : String) (c : Char) : List String :=
  (splitOnChar c s.toList).map (fun l => String.mk l)

/-- Boolean test that the first list is a leading segment of the second. -/
def isPrefixList : List Char → List Char → Bool
  | [], _ => true
  | _ :: _, [] => false
  | a :: as, b :: bs => a = b && isPrefixList as bs

/-- Python big.startswith(small). -/
def pyStartsWith (big small : String) : Bool :=
  isPrefixList small.toList big.toList

/-- Python str.split(sep, 1) for a single-character separator: splits at the
first occurrence only; none when the separator does not occur. -/
def splitOnce (c : Char) : List Char → Option (List Char × List Char)
  | [] => none
  | x :: xs =>
    if x = c then some ([], xs)
    else (splitOnce c xs).map (fun p => (x :: p.1, p.2))

/-- Helper for splitOnSub: fuel-indexed scan so that recursion is structural. -/
def splitSubAux (pat : List Char) : Nat → List Char → List Char → List (List Char)
  | _, [], acc => [acc.reverse]
  | 0, l, acc => [acc.reverse ++ l]
  | fuel + 1, x :: xs, acc =>
    if isPrefixList pat (x :: xs) && !pat.isEmpty then
      acc.reverse :: splitSubAux pat fuel ((x :: xs).drop pat.length) []
    else splitSubAux pat fuel xs (x :: acc)

/-- Python str.split with a multi-character separator (used for the literal
separator "github.com/"). -/
def splitOnSub (pat l : List Char) : List (List Char) :=
  splitSubAux pat (l.length + 1) l []

/-- Python str.rstrip("/"). -/
def rstripSlash (s : String) : String :=
  String.mk ((s.toList.reverse.dropWhile (fun c => c = '/')).reverse)

/-- Python published_date.replace("Z", "+00:00") from the version resolver. -/
def replaceZ (s : String) : String :=
  String.mk (s.toList.foldr
    (fun c acc => if c = 'Z' then '+' :: '0' :: '0' :: ':' :: '0' :: '0' :: acc else c :: acc)
    [])

/-- Python pathlib Path(p).name: the part after the last slash. -/
def pathName (s : String) : String :=
  (pySplit s '/').getLastD s

/-- Python pathlib Path(p).is_absolute() on POSIX: the path starts with '/'. -/
def isAbsolutePath (s : String) : Bool :=
  match s.toList with
  | [] => false
  | c :: _ => c = '/'

/-- Python character-for-character replacement used to build safe file names in
save_scan_results: '/' to '-', '@' to '_', ':' to '_'. -/
def safeName (s : String) : String :=
  String.mk (s.toList.map (fun c =>
    if c = '/' then '-' else if c = '@' then '_' else if c = ':' then '_' else c))

/-! ## Association lists modelling Python dictionaries -/

/-- Dictionary read d[k]: the value at the first occurrence of the key. -/
def getA {α : Type} : List (String × α) → String → Option α
  | [], _ => none
  | (k', v') :: rest, k => if k' = k then some v' else getA rest k

/-- Dictionary write d[k] = v: replace the value at the first occurrence of
the key in place, or append the binding at the end (insertion order). -/
def setA {α : Type} : List (String × α) → String → α → List (String × α)
  | [], k, v => [(k, v)]
  | (k', v') :: rest, k, v =>
    if k' = k then (k, v) :: rest else (k', v') :: setA rest k v

/-! ## Data model (section 3 of the spec; dictionary shapes of the source) -/

/-- ReleaseRecord: the per-version-label entry stored under releases.
Mirrors the dictionaries built in github_client.get_releases_info and
scanner_core._update_scan_metadata.  The sha field is a list whose elements
may be null (scanner_core stores scan_result['commit_sha'], which is None on
the fresh-scan path). -/
structure ReleaseRecord where
  published_date : String
  scanned : Bool
  latest : Option String
  sha : List (Option String)
  safe : Bool
  scan_report : Option String
deriving Repr, DecidableEq

/-- Repository block of a stats dictionary (built by get_repository_stats;
replaced wholesale by the merge). -/
structure RepoInfo where
  owner : String
  name : String
  created_at : Option String
  stars : Nat
  issues : Nat
  contributors : Nat
deriving Repr, DecidableEq

/-- RepositoryRecord / stats dictionary: one value of existing_metadata.
A missing releases key is modelled by the empty list (the source reads it with
.get('releases', {}) everywhere). -/
structure RepoMeta where
  repository : Option RepoInfo
  releases : List (String × ReleaseRecord)
  last_updated : Option String
deriving Repr, DecidableEq

/-- The persistent store self.existing_metadata, keyed by "owner/repo". -/
abbrev Store : Type := List (String × RepoMeta)

/-- Configuration slice used by the core: the scan output directory and the
current working directory (for Path.absolute on relative paths). -/
structure Config where
  output_dir : String
  cwd : String
deriving Repr, DecidableEq

/-! ## ScanStateStore: metadata merge (scanner_core._merge_repository_metadata) -/

/-- Python list(set(a).union(set(b))): the union of two sha lists as sets.
The iteration order of a Python set is unspecified, so the model fixes the
canonical representative (append then remove duplicates); every property
proved about it is a membership property. -/
def shaUnion (a b : List (Option String)) : List (Option String) :=
  (a ++ b).dedup

/-- Per-release merge step of _merge_repository_metadata (scanner_core.py
lines 307-339), applied to the stored entry (if any) and the incoming entry:
on SHA drift reset scanned/scan_report/safe, otherwise copy the stored scan
fields onto the incoming entry; then union the sha lists, but only when the
stored sha list has more than one element. -/
def applyMerge (stored : Option ReleaseRecord) (incoming : ReleaseRecord) : ReleaseRecord :=
  match stored with
  | none => incoming
  | some er =>
    let rd :=
      if er.latest ≠ incoming.latest then
        { incoming with scanned := false, scan_report := none, safe := true }
      else
        { incoming with scanned := er.scanned, scan_report := er.scan_report, safe := er.safe }
    if er.sha.length > 1 then { rd with sha := shaUnion er.sha rd.sha } else rd

/-- The release-merge loop of _merge_repository_metadata: for each incoming
label (in insertion order) transform the incoming entry against the current
stored entry and write it back. -/
def mergeReleases (stored incoming : List (String × ReleaseRecord)) :
    List (String × ReleaseRecord) :=
  incoming.foldl (fun acc p => setA acc p.1 (applyMerge (getA acc p.1) p.2)) stored

/-- scanner_core._merge_repository_metadata: replace the repository block if
the incoming stats carry one, set last_updated (defaulting to the current
time), and merge the release sets when the incoming set is non-empty. -/
def mergeRepositoryMetadata (now : String) (stored incoming : RepoMeta) : RepoMeta :=
  let m1 :=
    match incoming.repository with
    | some r => { stored with repository := some r }
    | none => stored
  let m2 := { m1 with last_updated := some (incoming.last_updated.getD now) }
  if incoming.releases.isEmpty then m2
  else { m2 with releases := mergeReleases m2.releases incoming.releases }

/-! ## ScanStateStore: recording a scan (scanner_core._update_scan_metadata) -/

/-- First half of _update_scan_metadata (scanner_core.py lines 733-741): when
the version label is absent, create its entry with the defaults, storing the
scan result's commit_sha value as both latest and the one-element sha list. -/
def upsertRelease (rels : List (String × ReleaseRecord)) (version : String)
    (commit_sha : Option String) : List (String × ReleaseRecord) :=
  match getA rels version with
  | some _ => rels
  | none => setA rels version ⟨"N/A", false, commit_sha, [commit_sha], true, none⟩

/-- Second half of _update_scan_metadata (lines 743-747): set scanned=true and
scan_report on the (now present) entry. -/
def markScanned (rels : List (String × ReleaseRecord)) (version : String)
    (scan_path : Option String) : List (String × ReleaseRecord) :=
  match getA rels version with
  | some r => setA rels version { r with scanned := true, scan_report := scan_path }
  | none => rels

/-- scanner_core._update_scan_metadata (record_scan of the spec): create the
repository and release entries with defaults when absent, then set
scanned=true and scan_report on the release entry.  The commit_sha / scan_path
arguments are the 'commit_sha' and 'scan_path' values of the scan result
dictionary. -/
def updateScanMetadata (store : Store) (owner_repo version : String)
    (commit_sha : Option String) (scan_path : Option String) : Store :=
  let meta := (getA store owner_repo).getD ⟨none, [], none⟩
  setA store owner_repo
    { meta with releases := markScanned (upsertRelease meta.releases version commit_sha) version scan_path }

/-! ## ScanDecisionEngine (scanner_core._check_existing_scan and helpers) -/

/-- scanner_core._resolve_scan_path: an absolute path is returned when it
exists; a relative path is tried as-is, under frontend/, and as its base name
under the output directory, returning the absolute form of the first existing
candidate.  The fs oracle models Path.exists. -/
def resolveScanPath (cfg : Config) (fs : String → Bool) (p : String) : Option String :=
  if p = "" then none
  else if isAbsolutePath p then
    (if fs p then some p else none)
  else
    let candidates := [p, "frontend/" ++ p, cfg.output_dir ++ "/" ++ pathName p]
    match candidates.find? (fun c => fs c) with
    | some c => some (if isAbsolutePath c then c else cfg.cwd ++ "/" ++ c)
    | none => none

/-- scanner_core._validate_existing_scan: true when the entry is marked
scanned and its report path resolves to an existing file; otherwise false,
and when the flag was set but the file is gone, the record is self-healed to
scanned=false, scan_report=null (the second component is the record after the
in-place mutation). -/
def validateExistingScan (cfg : Config) (fs : String → Bool) (r : ReleaseRecord) :
    Bool × ReleaseRecord :=
  if r.scanned = false then (false, r)
  else
    match r.scan_report with
    | none => (false, r)
    | some p =>
      if p = "" then (false, r)
      else
        match resolveScanPath cfg fs p with
        | none => (false, { r with scanned := false, scan_report := none })
        | some _ => (true, r)

/-- Decision-engine result dictionary of _check_existing_scan. -/
structure CheckResult where
  skip_scan : Bool
  scan_path : Option String
  commit_sha : Option String
  version : String
deriving Repr, DecidableEq

/-- Inner loop of the SHA fallback in _check_existing_scan: scan one release
entry's sha list.  A null sha element raises AttributeError in the source,
which the enclosing try/except turns into returning the result accumulated so
far; the first Boolean reports that the loop returned early (either a
validated match or that exception). -/
def shaInner (cfg : Config) (fs : String → Bool) (version name : String) :
    List (Option String) → ReleaseRecord → CheckResult →
    Bool × CheckResult × ReleaseRecord
  | [], r, res => (false, res, r)
  | none :: _, r, res => (true, res, r)
  | some s :: rest, r, res =>
    if version = s || pyStartsWith s version then
      let res1 := { res with commit_sha := some s, version := name }
      let v := validateExistingScan cfg fs r
      if v.1 then
        (true,
         { res1 with skip_scan := true,
                     scan_path := resolveScanPath cfg fs (v.2.scan_report.getD "") },
         v.2)
      else shaInner cfg fs version name rest v.2 res1
    else shaInner cfg fs version name rest r res

/-- Outer loop of the SHA fallback in _check_existing_scan, over the releases
of the repository; heals applied to a release stay in the dictionary. -/
def shaOuter (cfg : Config) (fs : String → Bool) (version : String) :
    List (String × ReleaseRecord) → CheckResult →
    Bool × CheckResult × List (String × ReleaseRecord)
  | [], res => (false, res, [])
  | (name, r) :: rest, res =>
    let step := shaInner cfg fs version name r.sha r res
    if step.1 then (true, step.2.1, (name, step.2.2) :: rest)
    else
      let tail := shaOuter cfg fs version rest step.2.1
      (tail.1, tail.2.1, (name, step.2.2) :: tail.2.2)

/-- scanner_core._check_existing_scan: look the repository up, try the direct
version match (validating and possibly self-healing the entry), then fall back
to matching the version string against every recorded sha (exactly or as a
prefix).  The returned store reflects the in-place mutations, which the
decision engine shares with the persistent store. -/
def checkExistingScan (cfg : Config) (fs : String → Bool) (store : Store)
    (owner_repo version : String) : CheckResult × Store :=
  let res0 : CheckResult := ⟨false, none, none, version⟩
  match getA store owner_repo with
  | none => (res0, store)
  | some meta =>
    let rels := meta.releases
    match getA rels version with
    | some ri =>
      let res1 := { res0 with commit_sha := ri.latest, version := version }
      let v := validateExistingScan cfg fs ri
      let rels1 := setA rels version v.2
      if v.1 then
        ({ res1 with skip_scan := true,
                     scan_path := resolveScanPath cfg fs (v.2.scan_report.getD "") },
         setA store owner_repo { meta with releases := rels1 })
      else
        let out := shaOuter cfg fs version rels1 res1
        (out.2.1, setA store owner_repo { meta with releases := out.2.2 })
    | none =>
      let out := shaOuter cfg fs version rels res0
      (out.2.1, setA store owner_repo { meta with releases := out.2.2 })

/-! ## GitHub client (src/github_client.py) -/

/-- Reserved version aliases of resolve_version_and_sha. -/
def reservedAliases : List String := ["latest", "main", "master", "prod", "production"]

/-- Oracle for the external GitHub calls consumed by the resolver.  Each of
the corresponding client methods catches its own exceptions and returns None
on failure, so the oracles are Option-valued: latestRelease carries the
tag_name and target_commitish of the latest published release (tag_name is
always present in the API payload); defaultBranch carries the repository info
and, inside, its default_branch field (the source reads it with
.get("default_branch", "main")).  parseDate models datetime.fromisoformat as
a map into a linearly ordered time key, none when parsing raises. -/
structure GHEnv where
  latestRelease : Option (String × Option String)
  defaultBranch : Option (Option String)
  parseDate : String → Option Nat

/-- get_releases_info, tags loop (github_client.py lines 212-223): every tag
becomes an unscanned entry whose latest sha is also its one-element sha list. -/
def releasesFromTags (tags : List (String × String)) : List (String × ReleaseRecord) :=
  tags.foldl (fun acc p =>
    setA acc p.1 ⟨"N/A", false, some p.2, [some p.2], true, none⟩) []

/-- get_releases_info, releases loop: fill in published_date for tags that
have a published release (release.get('published_at', 'N/A')). -/
def applyReleaseDates (info : List (String × ReleaseRecord))
    (rels : List (String × Option String)) : List (String × ReleaseRecord) :=
  rels.foldl (fun acc p =>
    match getA acc p.1 with
    | some r => setA acc p.1 { r with published_date := p.2.getD "N/A" }
    | none => acc) info

/-- get_releases_info: the release set built from the tag listing and the
release listing of the GitHub API. -/
def getReleasesInfo (tags : List (String × String))
    (rels : List (String × Option String)) : List (String × ReleaseRecord) :=
  applyReleaseDates (releasesFromTags tags) rels

/-- One sha element of the lookup loops: Python evaluates
version == sha or sha.startswith(version); on a null element the first test
is False and the second raises AttributeError. -/
def shaFindRelease (version : String) :
    List (Option String) → Except String (Option String)
  | [] => .ok none
  | none :: _ => .error "AttributeError"
  | some s :: rest =>
    if version = s || pyStartsWith s version then .ok (some s)
    else shaFindRelease version rest

/-- The sha lookup loop of resolve_version_and_sha (github_client.py lines
391-394): first release whose sha list contains the version exactly or as a
prefix, together with the full matched sha. -/
def shaLookup (version : String) :
    List (String × ReleaseRecord) → Except String (Option (String × String))
  | [] => .ok none
  | (name, r) :: rest => do
    match ← shaFindRelease version r.sha with
    | some s => return some (name, s)
    | none => shaLookup version rest

/-- One iteration of the latest-by-published-date loop of
resolve_version_and_sha (lines 410-419): an entry whose published_date is
"N/A" is skipped, an entry whose date fails to parse is skipped by the inner
try/except, and a strictly later date replaces the current best
(release_name, date) pair. -/
def bdStep (parseDate : String → Option Nat) (acc : Option (String × Nat))
    (p : String × ReleaseRecord) : Option (String × Nat) :=
  if p.2.published_date ≠ "N/A" then
    match parseDate (replaceZ p.2.published_date) with
    | some t =>
      match acc with
      | some q => if t > q.2 then some (p.1, t) else acc
      | none => some (p.1, t)
    | none => acc
  else acc

/-- The latest-by-published-date loop of resolve_version_and_sha (lines
407-419). -/
def bestByDate (parseDate : String → Option Nat)
    (rels : List (String × ReleaseRecord)) : Option (String × Nat) :=
  rels.foldl (bdStep parseDate) none

/-- External fallbacks of the alias branch: latest published release from the
API, then the repository default branch, then the literal pair ("main", null). -/
def aliasFallback (env : GHEnv) : Except String (String × Option String) :=
  match env.latestRelease with
  | some q => .ok (q.1, q.2)
  | none =>
    match env.defaultBranch with
    | some db => .ok (db.getD "main", none)
    | none => .ok ("main", none)

/-- Body of resolve_version_and_sha (github_client.py lines 364-448), before
the enclosing try/except: the non-alias branch consults the stored labels and
then the sha sets; the alias branch picks the newest dated release from the
store and otherwise degrades through the external fallbacks. -/
def resolveVersionAndShaCore (env : GHEnv) (owner repo version : String)
    (meta : Store) : Except String (String × Option String) := do
  let owner_repo := owner ++ "/" ++ repo
  if version ∈ reservedAliases then
    match getA meta owner_repo with
    | some m =>
      if !m.releases.isEmpty then
        match bestByDate env.parseDate m.releases with
        | some q =>
          if q.1 ≠ "" then
            return (q.1, (getA m.releases q.1).bind (fun r => r.latest))
          else aliasFallback env
        | none => aliasFallback env
      else aliasFallback env
    | none => aliasFallback env
  else
    match getA meta owner_repo with
    | some m =>
      match getA m.releases version with
      | some rr => return (version, rr.latest)
      | none =>
        match ← shaLookup version m.releases with
        | some q => return (q.1, some q.2)
        | none => return (version, none)
    | none => return (version, none)

/-- resolve_version_and_sha: the catch-all except of the source turns any
internal exception into the degraded answer (version, null). -/
def resolveVersionAndSha (env : GHEnv) (owner repo version : String)
    (meta : Store) : String × Option String :=
  match resolveVersionAndShaCore env owner repo version meta with
  | .ok p => p
  | .error _ => (version, none)

/-- parse_action_reference (github_client.py lines 546-579): URL form takes
the piece after "github.com/" (an absent piece raises IndexError, caught as
the (None, None, "latest") answer); reference form splits once at '@';
the owner/repo part must split at '/' into exactly two pieces. -/
def parseActionReference (action_ref : String) : Option String × Option String × String :=
  let fromOwnerRepo := fun (owner_repo version : String) =>
    let parts := pySplit owner_repo '/'
    if parts.length ≠ 2 then ((none : Option String), (none : Option String), version)
    else (some (parts.getD 0 ""), some (parts.getD 1 ""), version)
  if pyStartsWith action_ref "http" then
    match splitOnSub "github.com/".toList action_ref.toList with
    | _ :: second :: _ => fromOwnerRepo (rstripSlash (String.mk second)) "latest"
    | _ => (none, none, "latest")
  else
    match splitOnce '@' action_ref.toList with
    | some q => fromOwnerRepo (String.mk q.1) (String.mk q.2)
    | none => fromOwnerRepo action_ref "latest"

/-! ## AnalysisProvider (src/ai_core.py, analyze_security result shape) -/

/-- Result dictionary of ai_core analyze_security. -/
structure AnalysisResult where
  success : Bool
  content : Option String
  tokens_used : Nat
  cost : Nat
  error : Option String
deriving Repr, DecidableEq

/-- ai_core analyze_security (both model backends share this shape): a missing
or empty prompt fails with a fixed message; otherwise the model call either
returns content with token/cost accounting or raises, and the catch-all
except stores the exception text.  The llm oracle models the LangChain
invocation; the cost, a Python float, is modelled as an abstract numeral. -/
def analyzeSecurity (llm : Except String (String × Nat × Nat))
    (prompt : Option String) : AnalysisResult :=
  match prompt with
  | none => ⟨false, none, 0, 0, some "Security prompt not provided"⟩
  | some p =>
    if p = "" then ⟨false, none, 0, 0, some "Security prompt not provided"⟩
    else
      match llm with
      | .ok q => ⟨true, some q.1, q.2.1, q.2.2, none⟩
      | .error e => ⟨false, none, 0, 0, some e⟩

/-! ## ScanOrchestrator (src/scanner_core.py, scan_action and helpers) -/

/-- Oracle environment of one orchestrator run.  Every field models an
external collaborator call that catches its own exceptions in the source:
repoStats is get_repository_stats (None on failure); download is
download_action; extractedFiles is file_processor.extract_action_files;
validOk / validErrors are the validate_extracted_files verdict; prompt is the
loaded security prompt; llm is the AI invocation; saveOk tells whether the
json.dump in _save_scan_results succeeds; render / renderFresh model the
report generator applied to a scan path (None when it fails). -/
structure ScanEnv where
  gh : GHEnv
  repoStats : Option RepoMeta
  now : String
  download : Option String
  extractedFiles : List (String × String)
  validOk : Bool
  validErrors : String
  prompt : Option String
  llm : Except String (String × Nat × Nat)
  saveOk : Bool
  render : String → Option String
  renderFresh : String → Option String

/-- Result dictionary of _perform_fresh_scan.  Its commit_sha key is
initialized to None and never updated by the source (the commit sha reaches
the saved artifact, not this dictionary). -/
structure FreshResult where
  success : Bool
  scan_path : Option String
  report_path : Option String
  commit_sha : Option String
  tokens_used : Nat
  cost : Nat
  error : Option String
deriving Repr, DecidableEq

/-- scanner_core._save_scan_results: writes the artifact under the output
directory as the sanitized action reference plus ".json" and returns its
path; on an I/O failure the catch-all except returns None.  On success the
written path becomes an existing file. -/
def saveScanResults (env : ScanEnv) (cfg : Config) (fs : String → Bool)
    (action_ref : String) : Option String × (String → Bool) :=
  if env.saveOk then
    let path := cfg.output_dir ++ "/" ++ safeName action_ref ++ ".json"
    (some path, fun s => if s = path then true else fs s)
  else (none, fs)

/-- scanner_core._perform_fresh_scan: download, extract, validate, analyze,
save, render; each failing stage returns success=False with a stage message.
The last component counts AnalysisProvider invocations. -/
def performFreshScan (env : ScanEnv) (cfg : Config) (fs : String → Bool)
    (action_ref : String) : FreshResult × (String → Bool) × Nat :=
  let fail : FreshResult := ⟨false, none, none, none, 0, 0, none⟩
  match env.download with
  | none => ({ fail with error := some "Failed to download action" }, fs, 0)
  | some _ =>
    if env.extractedFiles.isEmpty then
      ({ fail with error := some "No analyzable files found" }, fs, 0)
    else if env.validOk = false then
      ({ fail with error := some ("File validation failed: " ++ env.validErrors) }, fs, 0)
    else
      let ar := analyzeSecurity env.llm env.prompt
      if ar.success = false then
        ({ fail with error := some (ar.error.getD "AI analysis failed") }, fs, 1)
      else
        match saveScanResults env cfg fs action_ref with
        | (none, fs1) => ({ fail with error := some "Failed to save scan results" }, fs1, 1)
        | (some path, fs1) =>
          ({ success := true, scan_path := some path,
             report_path := env.renderFresh path, commit_sha := none,
             tokens_used := ar.tokens_used, cost := ar.cost, error := none }, fs1, 1)

/-- scanner_core._update_repository_metadata with force_update=True: fetch
stats; on success insert a new repository record or merge into the stored
one; on failure leave the store untouched. -/
def updateRepositoryMetadata (env : ScanEnv) (store : Store) (owner_repo : String) : Store :=
  match env.repoStats with
  | none => store
  | some stats =>
    match getA store owner_repo with
    | none => setA store owner_repo stats
    | some stored => setA store owner_repo (mergeRepositoryMetadata env.now stored stats)

/-- Outcome dictionary of scan_action.  Keys that the source only adds on
some paths (commit_sha, scan_path, tokens_used, cost) carry their absent
value (none / 0) elsewhere. -/
structure ScanResultR where
  success : Bool
  action_ref : String
  scan_type : String
  report_path : Option String
  error : Option String
  commit_sha : Option String
  scan_path : Option String
  tokens_used : Nat
  cost : Nat
deriving Repr, DecidableEq

/-- One orchestrator step: the outcome plus the state it leaves behind (the
shared metadata store, the filesystem, and how many times the
AnalysisProvider was invoked). -/
structure ScanStep where
  outcome : ScanResultR
  store : Store
  fs : String → Bool
  aiCalls : Nat

/-- scanner_core.scan_action: parse the reference, refresh the repository
metadata, resolve the version, consult the decision engine, and either reuse
the existing artifact, stop after metadata (skip_ai_scan), or perform a fresh
scan and record it in the store. -/
def scanAction (env : ScanEnv) (cfg : Config) (store : Store) (fs : String → Bool)
    (action_ref : String) (skip_ai_scan : Bool) : ScanStep :=
  let base : ScanResultR :=
    ⟨false, action_ref, "new", none, none, none, none, 0, 0⟩
  match parseActionReference action_ref with
  | (some owner, some repo, version) =>
    if owner = "" || repo = "" then
      ⟨{ base with error := some ("Invalid action reference format: " ++ action_ref) },
       store, fs, 0⟩
    else
      let owner_repo := owner ++ "/" ++ repo
      let store1 := updateRepositoryMetadata env store owner_repo
      let rv := resolveVersionAndSha env.gh owner repo version store1
      let resolved_version := rv.1
      let commit_sha := rv.2
      let chk := checkExistingScan cfg fs store1 owner_repo resolved_version
      let scanInfo := chk.1
      let store2 := chk.2
      if scanInfo.skip_scan then
        let rp := match scanInfo.scan_path with
                  | some p => env.render p
                  | none => none
        ⟨{ base with success := true, scan_type := "existing", report_path := rp },
         store2, fs, 0⟩
      else if skip_ai_scan then
        ⟨{ base with success := true }, store2, fs, 0⟩
      else
        let resolved_ref := owner_repo ++ "@" ++ resolved_version
        let fresh := performFreshScan env cfg fs resolved_ref
        let fr := fresh.1
        let fs1 := fresh.2.1
        let calls := fresh.2.2
        if fr.success then
          let store3 :=
            updateScanMetadata store2 owner_repo resolved_version fr.commit_sha fr.scan_path
          let out : ScanResultR :=
            { base with
              success := true
              scan_path := fr.scan_path
              report_path := fr.report_path
              tokens_used := fr.tokens_used
              cost := fr.cost
              commit_sha := commit_sha }
          ⟨out, store3, fs1, calls⟩
        else
          ⟨{ base with error := some (fr.error.getD "Unknown scan error") },
           store2, fs1, calls⟩
  | (_, _, _) =>
    ⟨{ base with error := some ("Invalid action reference format: " ++ action_ref) },
     store, fs, 0⟩

/-! ## Association-list lemmas -/

theorem getA_setA_self {α : Type} (m : List (String × α)) (k : String) (v : α) :
    getA (setA m k v) k = some v := by
  induction m with
  | nil => simp [getA, setA]
  | cons p rest ih =>
    obtain ⟨a, b⟩ := p
    by_cases h : a = k
    · simp [getA, setA, h]
    · simp [getA, setA, h, ih]

theorem getA_setA_ne {α : Type} (m : List (String × α)) (k k' : String) (v : α)
    (h : k ≠ k') : getA (setA m k v) k' = getA m k' := by
  induction m with
  | nil => simp [getA, setA, h]
  | cons p rest ih =>
    obtain ⟨a, b⟩ := p
    by_cases hak : a = k
    · subst hak
      simp [getA, setA, h]
    · simp [getA, setA, hak, ih]

theorem setA_getA_self {α : Type} (m : List (String × α)) (k : String) (v : α)
    (h : getA m k = some v) : setA m k v = m := by
  induction m with
  | nil => simp [getA] at h
  | cons p rest ih =>
    obtain ⟨a, b⟩ := p
    by_cases hak : a = k
    · subst hak
      simp [getA] at h
      simp [setA, h]
    · simp [getA, hak] at h
      simp [setA, hak, ih h]

theorem getA_mem {α : Type} (m : List (String × α)) (k : String) (v : α)
    (h : getA m k = some v) : (k, v) ∈ m := by
  induction m with
  | nil => simp [getA] at h
  | cons p rest ih =>
    obtain ⟨a, b⟩ := p
    by_cases hak : a = k
    · subst hak
      simp [getA] at h
      simp [h]
    · simp [getA, hak] at h
      simp [ih h]

theorem mem_setA {α : Type} (m : List (String × α)) (k : String) (v : α)
    (q : String × α) (h : q ∈ setA m k v) : q ∈ m ∨ q = (k, v) := by
  induction m with
  | nil =>
    simp [setA] at h
    simp [h]
  | cons p rest ih =>
    obtain ⟨a, b⟩ := p
    by_cases hak : a = k
    · subst hak
      simp [setA] at h
      rcases h with h | h
      · right; simp [h]
      · left; simp [h]
    · simp [setA, hak] at h
      rcases h with h | h
      · left; simp [h]
      · rcases ih h with h' | h'
        · left; simp [h']
        · right; exact h'

theorem getA_some_ne_nil {α : Type} (m : List (String × α)) (k : String) (v : α)
    (h : getA m k = some v) : m ≠ [] := by
  intro hnil
  subst hnil
  simp [getA] at h

theorem getA_split {α : Type} (m : List (String × α)) (k : String) (v : α)
    (h : getA m k = some v) :
    ∃ l₁ l₂, m = l₁ ++ (k, v) :: l₂ ∧ ∀ q ∈ l₁, q.1 ≠ k := by
  induction m with
  | nil => simp [getA] at h
  | cons p rest ih =>
    obtain ⟨a, b⟩ := p
    by_cases hak : a = k
    · subst hak
      simp [getA] at h
      exact ⟨[], rest, by simp [h], by simp⟩
    · simp [getA, hak] at h
      obtain ⟨l₁, l₂, heq, hk⟩ := ih h
      refine ⟨(a, b) :: l₁, l₂, by simp [heq], ?_⟩
      intro q hq
      rcases List.mem_cons.mp hq with h' | h'
      · simp [h', hak]
      · exact hk q h'

/-! ## Merge lemmas -/

theorem mergeReleases_nil (stored : List (String × ReleaseRecord)) :
    mergeReleases stored [] = stored := rfl

theorem mergeReleases_cons (stored : List (String × ReleaseRecord))
    (p : String × ReleaseRecord) (rest : List (String × ReleaseRecord)) :
    mergeReleases stored (p :: rest) =
      mergeReleases (setA stored p.1 (applyMerge (getA stored p.1) p.2)) rest := rfl

theorem mergeReleases_frame (stored incoming : List (String × ReleaseRecord)) (k : String)
    (h : ∀ q ∈ incoming, q.1 ≠ k) :
    getA (mergeReleases stored incoming) k = getA stored k := by
  induction incoming generalizing stored with
  | nil => rfl
  | cons p rest ih =>
    obtain ⟨nm, rd⟩ := p
    have hnm : nm ≠ k := h (nm, rd) (by simp)
    have hrest : ∀ q ∈ rest, q.1 ≠ k := fun q hq => h q (by simp [hq])
    rw [mergeReleases_cons, ih _ hrest]
    exact getA_setA_ne _ _ _ _ hnm

theorem mergeReleases_getA (stored incoming : List (String × ReleaseRecord)) (k : String)
    (rd : ReleaseRecord)
    (hnodup : (incoming.map Prod.fst).Nodup)
    (h : getA incoming k = some rd) :
    getA (mergeReleases stored incoming) k = some (applyMerge (getA stored k) rd) := by
  induction incoming generalizing stored with
  | nil => simp [getA] at h
  | cons p rest ih =>
    obtain ⟨nm, rd0⟩ := p
    by_cases hnk : nm = k
    · subst hnk
      simp [getA] at h
      subst h
      have hrest : ∀ q ∈ rest, q.1 ≠ nm := by
        simp only [List.map_cons, List.nodup_cons] at hnodup
        intro q hq he
        exact hnodup.1 (he ▸ List.mem_map_of_mem Prod.fst hq)
      rw [mergeReleases_cons, mergeReleases_frame _ _ _ hrest]
      exact getA_setA_self _ _ _
    · simp [getA, hnk] at h
      have hnodup' : (rest.map Prod.fst).Nodup := by
        simp only [List.map_cons, List.nodup_cons] at hnodup
        exact hnodup.2
      rw [mergeReleases_cons]
      rw [ih _ hnodup' h]
      rw [getA_setA_ne _ _ _ _ hnk]

/-! ## The latest-in-sha invariant (claim C5 machinery) -/

/-- Invariant of section 3 of the spec on one release dictionary: every
entry's latest value is a member of its sha list. -/
abbrev relInv (rels : List (String × ReleaseRecord)) : Prop :=
  ∀ q ∈ rels, q.2.latest ∈ q.2.sha

/-- The latest-in-sha invariant over the whole store. -/
abbrev storeInv (st : Store) : Prop := ∀ q ∈ st, relInv q.2.releases

theorem mem_shaUnion (a b : List (Option String)) (x : Option String) :
    x ∈ shaUnion a b ↔ x ∈ a ∨ x ∈ b := by
  simp [shaUnion]

theorem applyMerge_inv (stored : Option ReleaseRecord) (incoming : ReleaseRecord)
    (h : incoming.latest ∈ incoming.sha) :
    (applyMerge stored incoming).latest ∈ (applyMerge stored incoming).sha := by
  cases stored with
  | none => simpa [applyMerge] using h
  | some er =>
    by_cases h1 : er.latest = incoming.latest <;>
      by_cases h2 : er.sha.length > 1 <;>
        simp [applyMerge, h1, h2, mem_shaUnion, h]

theorem relInv_setA (rels : List (String × ReleaseRecord)) (k : String)
    (v : ReleaseRecord) (h : relInv rels) (hv : v.latest ∈ v.sha) :
    relInv (setA rels k v) := by
  intro q hq
  rcases mem_setA _ _ _ _ hq with h' | h'
  · exact h q h'
  · rw [h']
    exact hv

theorem mergeReleases_inv (stored incoming : List (String × ReleaseRecord))
    (h1 : relInv stored) (h2 : relInv incoming) :
    relInv (mergeReleases stored incoming) := by
  induction incoming generalizing stored with
  | nil => exact h1
  | cons p rest ih =>
    obtain ⟨nm, rd⟩ := p
    rw [mergeReleases_cons]
    refine ih _ (relInv_setA _ _ _ h1 ?_) (fun q hq => h2 q (by simp [hq]))
    exact applyMerge_inv _ _ (h2 (nm, rd) (by simp))

theorem mergeRepositoryMetadata_releases (now : String) (stored incoming : RepoMeta)
    (h : incoming.releases ≠ []) :
    (mergeRepositoryMetadata now stored incoming).releases =
      mergeReleases stored.releases incoming.releases := by
  cases hrep : incoming.repository <;>
    simp [mergeRepositoryMetadata, hrep, List.isEmpty_iff, h]

theorem mergeRepositoryMetadata_releases_empty (now : String) (stored incoming : RepoMeta)
    (h : incoming.releases = []) :
    (mergeRepositoryMetadata now stored incoming).releases = stored.releases := by
  cases hrep : incoming.repository <;>
    simp [mergeRepositoryMetadata, hrep, List.isEmpty_iff, h]

theorem tagsFold_inv (tags : List (String × String))
    (acc : List (String × ReleaseRecord)) (h : relInv acc) :
    relInv (tags.foldl (fun acc p =>
      setA acc p.1 ⟨"N/A", false, some p.2, [some p.2], true, none⟩) acc) := by
  induction tags generalizing acc with
  | nil => exact h
  | cons p rest ih =>
    simp only [List.foldl_cons]
    exact ih _ (relInv_setA _ _ _ h (by simp))

theorem applyReleaseDates_inv (rels : List (String × Option String))
    (acc : List (String × ReleaseRecord)) (h : relInv acc) :
    relInv (applyReleaseDates acc rels) := by
  induction rels generalizing acc with
  | nil => exact h
  | cons p rest ih =>
    simp only [applyReleaseDates, List.foldl_cons]
    have step : relInv (match getA acc p.1 with
      | some r => setA acc p.1 { r with published_date := p.2.getD "N/A" }
      | none => acc) := by
      cases hg : getA acc p.1 with
      | none => exact h
      | some r =>
        refine relInv_setA _ _ _ h ?_
        have := h (p.1, r) (getA_mem _ _ _ hg)
        simpa using this
    simpa [applyReleaseDates] using ih _ step

theorem getReleasesInfo_inv (tags : List (String × String))
    (rels : List (String × Option String)) :
    relInv (getReleasesInfo tags rels) := by
  refine applyReleaseDates_inv _ _ ?_
  refine tagsFold_inv _ _ ?_
  intro q hq
  simp at hq

theorem upsertRelease_inv (rels : List (String × ReleaseRecord)) (v : String)
    (c : Option String) (h : relInv rels) : relInv (upsertRelease rels v c) := by
  unfold upsertRelease
  cases hg : getA rels v with
  | some r => exact h
  | none => exact relInv_setA _ _ _ h (by simp)

theorem markScanned_inv (rels : List (String × ReleaseRecord)) (v : String)
    (p : Option String) (h : relInv rels) : relInv (markScanned rels v p) := by
  unfold markScanned
  cases hg : getA rels v with
  | none => exact h
  | some r =>
    refine relInv_setA _ _ _ h ?_
    simpa using h (v, r) (getA_mem _ _ _ hg)

theorem updateScanMetadata_inv (st : Store) (orepo v : String)
    (c : Option String) (p : Option String) (h : storeInv st) :
    storeInv (updateScanMetadata st orepo v c p) := by
  intro q hq
  have hmeta : relInv ((getA st orepo).getD ⟨none, [], none⟩).releases := by
    cases hg : getA st orepo with
    | none => intro q hq; simp [hg, getA] at hq
    | some meta => simpa [hg] using h (orepo, meta) (getA_mem _ _ _ hg)
  have hq' : q ∈ setA st orepo
      { (getA st orepo).getD ⟨none, [], none⟩ with
        releases := markScanned
          (upsertRelease ((getA st orepo).getD ⟨none, [], none⟩).releases v c) v p } := hq
  rcases mem_setA _ _ _ _ hq' with h' | h'
  · exact h q h'
  · rw [h']
    exact markScanned_inv _ _ _ (upsertRelease_inv _ _ _ hmeta)

/-! ## Concrete fixtures used by counterexamples and witnesses -/

/-- Stored record: one release v1 with latest SHA "A", a singleton sha set,
and a completed scan. -/
def exStored1 : RepoMeta :=
  ⟨none, [("v1", ⟨"N/A", true, some "A", [some "A"], true, some "/r/v1.json"⟩)], some "t0"⟩

/-- Incoming release set: v1 now points at SHA "B". -/
def exIncoming1 : RepoMeta :=
  ⟨none, [("v1", ⟨"N/A", false, some "B", [some "B"], true, none⟩)], some "t1"⟩

/-- Placeholder release record used only to read fields out of an Option. -/
def blankRelease : ReleaseRecord := ⟨"", false, none, [], false, none⟩

/-! ## Claim C1: SHA drift invalidation and the sha union -/

/-- C1, counterexample: merging v1 with latest SHA "B" over a stored v1 with
latest SHA "A" and a singleton sha set yields sha = ["B"], not the union
containing "A": the source only unions the sha sets when the stored sha list
has more than one element (the len > 1 guard in _merge_repository_metadata). -/
theorem c1_counterexample :
    getA (mergeRepositoryMetadata "now" exStored1 exIncoming1).releases "v1" =
      some ⟨"N/A", false, some "B", [some "B"], true, none⟩ ∧
    ¬ some "A" ∈ (((getA (mergeRepositoryMetadata "now" exStored1 exIncoming1).releases "v1").getD
      blankRelease).sha) := by
  decide

/-- C1, amended: on SHA drift the merge yields scanned=false,
scan_report=null, safe=true and the incoming latest SHA; the sha sets are
unioned only when the stored sha set has more than one element — when the
stored set is a singleton the resulting sha set is just the incoming one. -/
theorem c1_sha_drift_amended (now : String) (stored incoming : RepoMeta)
    (v : String) (oldR newR : ReleaseRecord)
    (hnodup : (incoming.releases.map Prod.fst).Nodup)
    (hold : getA stored.releases v = some oldR)
    (hnew : getA incoming.releases v = some newR)
    (hdrift : oldR.latest ≠ newR.latest) :
    ∃ m, getA (mergeRepositoryMetadata now stored incoming).releases v = some m ∧
      m.scanned = false ∧ m.scan_report = none ∧ m.safe = true ∧
      m.latest = newR.latest ∧
      (oldR.sha.length ≤ 1 → m.sha = newR.sha) ∧
      (1 < oldR.sha.length → ∀ x, x ∈ m.sha ↔ x ∈ oldR.sha ∨ x ∈ newR.sha) := by
  have hne : incoming.releases ≠ [] := getA_some_ne_nil _ _ _ hnew
  rw [mergeRepositoryMetadata_releases now stored incoming hne,
      mergeReleases_getA _ _ _ _ hnodup hnew, hold]
  refine ⟨applyMerge (some oldR) newR, rfl, ?_⟩
  by_cases h2 : oldR.sha.length > 1
  · exact ⟨by simp [applyMerge, hdrift, h2], by simp [applyMerge, hdrift, h2],
      by simp [applyMerge, hdrift, h2], by simp [applyMerge, hdrift, h2],
      fun h => by omega,
      fun _ x => by simp [applyMerge, hdrift, h2, mem_shaUnion]⟩
  · exact ⟨by simp [applyMerge, hdrift, h2], by simp [applyMerge, hdrift, h2],
      by simp [applyMerge, hdrift, h2], by simp [applyMerge, hdrift, h2],
      fun _ => by simp [applyMerge, hdrift, h2],
      fun h => by omega⟩

/-- C1, witness for the amended theorem at the concrete drift fixture. -/
theorem c1_witness :
    ∃ m, getA (mergeRepositoryMetadata "now" exStored1 exIncoming1).releases "v1" = some m ∧
      m.scanned = false ∧ m.scan_report = none ∧ m.safe = true ∧
      m.latest = some "B" ∧ m.sha = [some "B"] := by
  obtain ⟨m, hm, h1, h2, h3, h4, h5, _⟩ :=
    c1_sha_drift_amended "now" exStored1 exIncoming1 "v1"
      ⟨"N/A", true, some "A", [some "A"], true, some "/r/v1.json"⟩
      ⟨"N/A", false, some "B", [some "B"], true, none⟩
      (by decide) (by decide) (by decide) (by decide)
  exact ⟨m, hm, h1, h2, h3, h4, h5 (by decide)⟩

/-! ## Claim C2: record_scan and a pre-existing entry -/

/-- Store with a release v1 already recorded under SHA "aaa". -/
def exStore2 : Store :=
  [("o/r", ⟨none, [("v1", ⟨"N/A", false, some "aaa", [some "aaa"], true, none⟩)], none⟩)]

/-- C2, counterexample: recording a scan of v1 at SHA "bbb" over an entry
whose stored SHA is "aaa" sets scanned and scan_report but leaves latest and
sha at "aaa": the source only writes the commit sha when it creates the
entry. -/
theorem c2_counterexample :
    getA ((getA (updateScanMetadata exStore2 "o/r" "v1" (some "bbb") (some "/out/p.json")) "o/r").getD
        ⟨none, [], none⟩).releases "v1" =
      some ⟨"N/A", true, some "aaa", [some "aaa"], true, some "/out/p.json"⟩ ∧
    ¬ some "bbb" ∈ ((getA ((getA (updateScanMetadata exStore2 "o/r" "v1" (some "bbb") (some "/out/p.json")) "o/r").getD
        ⟨none, [], none⟩).releases "v1").getD blankRelease).sha := by
  decide

/-- C2, amended: record_scan upserts the release entry and sets scanned=true
with the artifact path; the commit SHA is written into latest and the sha set
only when the entry is newly created — a pre-existing entry keeps its prior
latest and sha unchanged. -/
theorem c2_record_scan_amended (st : Store) (orepo v : String) (c ap : Option String) :
    ∃ meta', getA (updateScanMetadata st orepo v c ap) orepo = some meta' ∧
      (getA ((getA st orepo).getD ⟨none, [], none⟩).releases v = none →
        getA meta'.releases v = some ⟨"N/A", true, c, [c], true, ap⟩) ∧
      (∀ r, getA ((getA st orepo).getD ⟨none, [], none⟩).releases v = some r →
        getA meta'.releases v = some { r with scanned := true, scan_report := ap }) := by
  have hget : getA (updateScanMetadata st orepo v c ap) orepo =
      some { (getA st orepo).getD ⟨none, [], none⟩ with
             releases := markScanned
               (upsertRelease ((getA st orepo).getD ⟨none, [], none⟩).releases v c) v ap } := by
    unfold updateScanMetadata
    exact getA_setA_self _ _ _
  refine ⟨_, hget, ?_, ?_⟩
  · intro hnone
    simp only [upsertRelease, hnone]
    simp only [markScanned, getA_setA_self]
  · intro r hr
    simp only [upsertRelease, hr]
    simp only [markScanned, hr]
    exact getA_setA_self _ _ _

/-- C2, witness for the amended theorem: the pre-existing branch at the
concrete fixture. -/
theorem c2_witness :
    ∃ meta', getA (updateScanMetadata exStore2 "o/r" "v1" (some "bbb") (some "/out/p.json")) "o/r" = some meta' ∧
      getA meta'.releases "v1" =
        some ⟨"N/A", true, some "aaa", [some "aaa"], true, some "/out/p.json"⟩ := by
  obtain ⟨m, hm, _, hsome⟩ :=
    c2_record_scan_amended exStore2 "o/r" "v1" (some "bbb") (some "/out/p.json")
  exact ⟨m, hm, hsome ⟨"N/A", false, some "aaa", [some "aaa"], true, none⟩ (by decide)⟩

/-! ## Claim C5: the latest-in-sha invariant -/

/-- C5: every release record reachable by the system's operations satisfies
latest ∈ sha: the release-set construction from tags establishes it, and both
the metadata merge and scan recording preserve it (the merge under the
assumption that the incoming set, produced by that construction, satisfies
it). -/
theorem c5_latest_mem_sha :
    (∀ tags rels, relInv (getReleasesInfo tags rels)) ∧
    (∀ now stored incoming, relInv stored.releases → relInv incoming.releases →
      relInv (mergeRepositoryMetadata now stored incoming).releases) ∧
    (∀ st orepo v c p, storeInv st → storeInv (updateScanMetadata st orepo v c p)) := by
  refine ⟨fun tags rels => getReleasesInfo_inv tags rels, ?_,
    fun st orepo v c p h => updateScanMetadata_inv st orepo v c p h⟩
  intro now stored incoming h1 h2
  by_cases h : incoming.releases = []
  · rw [mergeRepositoryMetadata_releases_empty now stored incoming h]
    exact h1
  · rw [mergeRepositoryMetadata_releases now stored incoming h]
    exact mergeReleases_inv _ _ h1 h2

/-- C5, witness: invariant preservation applied at the concrete drift merge. -/
theorem c5_witness :
    relInv (mergeRepositoryMetadata "now" exStored1 exIncoming1).releases :=
  c5_latest_mem_sha.2.1 "now" exStored1 exIncoming1 (by decide) (by decide)

/-! ## Claim C8: merge preserves unseen labels -/

/-- C8: a label present in the stored record but absent from the incoming
release set is retained by the merge with all its fields unchanged. -/
theorem c8_merge_preserves_unseen (now : String) (stored incoming : RepoMeta)
    (v : String) (r : ReleaseRecord)
    (hst : getA stored.releases v = some r)
    (habs : ∀ q ∈ incoming.releases, q.1 ≠ v) :
    getA (mergeRepositoryMetadata now stored incoming).releases v = some r := by
  by_cases h : incoming.releases = []
  · rw [mergeRepositoryMetadata_releases_empty now stored incoming h]
    exact hst
  · rw [mergeRepositoryMetadata_releases now stored incoming h,
        mergeReleases_frame _ _ _ habs]
    exact hst

/-- Stored record with two releases. -/
def exStored8 : RepoMeta :=
  ⟨none,
   [("v1", ⟨"2023-01-01", true, some "s1", [some "s1"], true, some "/r/v1.json"⟩),
    ("v2", ⟨"2023-02-01", false, some "s2", [some "s2"], true, none⟩)], some "t0"⟩

/-- Incoming release set containing only v2. -/
def exIncoming8 : RepoMeta :=
  ⟨none, [("v2", ⟨"2023-02-01", false, some "s2x", [some "s2x"], true, none⟩)], some "t1"⟩

/-- C8, witness: merging an incoming set containing only v2 leaves v1
untouched. -/
theorem c8_witness :
    getA (mergeRepositoryMetadata "now" exStored8 exIncoming8).releases "v1" =
      some ⟨"2023-01-01", true, some "s1", [some "s1"], true, some "/r/v1.json"⟩ :=
  c8_merge_preserves_unseen "now" exStored8 exIncoming8 "v1"
    ⟨"2023-01-01", true, some "s1", [some "s1"], true, some "/r/v1.json"⟩
    (by decide) (by decide)

/-! ## Decision-engine lemmas (claim C4 machinery) -/

/-- Boolean form of the sha-match test of the lookup loops, on one sha
element; a null element never counts as a hit here (it raises instead, which
the loop lemmas handle separately). -/
def shaHit (v : String) : Option String → Bool
  | none => false
  | some s => (v = s) || pyStartsWith s v

theorem shaInner_nomatch (cfg : Config) (fs : String → Bool) (version name : String)
    (shas : List (Option String)) (r : ReleaseRecord) (res : CheckResult)
    (h : ∀ x ∈ shas, shaHit version x = false) :
    (shaInner cfg fs version name shas r res).2.1 = res ∧
    (shaInner cfg fs version name shas r res).2.2 = r := by
  induction shas with
  | nil => exact ⟨rfl, rfl⟩
  | cons x rest ih =>
    cases x with
    | none => exact ⟨rfl, rfl⟩
    | some s =>
      have hs : shaHit version (some s) = false := h (some s) (by simp)
      have hrest : ∀ x ∈ rest, shaHit version x = false := fun x hx => h x (by simp [hx])
      simp only [shaHit] at hs
      simp only [shaInner, hs]
      simpa using ih hrest

theorem shaOuter_nomatch (cfg : Config) (fs : String → Bool) (version : String)
    (rels : List (String × ReleaseRecord)) (res : CheckResult)
    (h : ∀ q ∈ rels, ∀ x ∈ q.2.sha, shaHit version x = false) :
    (shaOuter cfg fs version rels res).2.1 = res ∧
    (shaOuter cfg fs version rels res).2.2 = rels := by
  induction rels generalizing res with
  | nil => exact ⟨rfl, rfl⟩
  | cons p rest ih =>
    obtain ⟨name, r⟩ := p
    obtain ⟨h1, h2⟩ := shaInner_nomatch cfg fs version name r.sha r res
      (fun x hx => h (name, r) (by simp) x hx)
    have hrest : ∀ q ∈ rest, ∀ x ∈ q.2.sha, shaHit version x = false :=
      fun q hq => h q (by simp [hq])
    simp only [shaOuter]
    by_cases hb : (shaInner cfg fs version name r.sha r res).1
    · simp [hb, h1, h2]
    · obtain ⟨h3, h4⟩ := ih ((shaInner cfg fs version name r.sha r res).2.1) hrest
      simp [hb, h1, h2]
      rw [h1] at h3 h4
      exact ⟨h3, h4⟩

/-! ## Claim C4: self-healing on a missing artifact -/

/-- Configuration fixture. -/
def cfg4 : Config := ⟨"/out", "/cwd"⟩

/-- Filesystem fixture on which only /ok.json exists. -/
def fs4 : String → Bool := fun s => s = "/ok.json"

/-- Store fixture: release "abc" has scanned=true with a missing artifact;
release v2 has a sha beginning with "abc" and a valid artifact. -/
def store4 : Store :=
  [("o/r", ⟨none,
    [("abc", ⟨"N/A", true, some "aaaa", [some "aaaa"], true, some "/x/y.json"⟩),
     ("v2", ⟨"N/A", true, some "abc123", [some "abc123"], true, some "/ok.json"⟩)], none⟩)]

/-- C4, counterexample: the release "abc" satisfies the claim's hypothesis
(scanned=true, scan_report=/x/y.json, missing on disk), yet the decision for
version "abc" returns skip_scan=true: after self-healing "abc", the source
falls through to the sha loop, where "abc" is a prefix of another release's
sha with a valid artifact. -/
theorem c4_counterexample :
    (getA ((getA store4 "o/r").getD ⟨none, [], none⟩).releases "abc").map ReleaseRecord.scanned =
      some true ∧
    (getA ((getA store4 "o/r").getD ⟨none, [], none⟩).releases "abc").map ReleaseRecord.scan_report =
      some (some "/x/y.json") ∧
    resolveScanPath cfg4 fs4 "/x/y.json" = none ∧
    (checkExistingScan cfg4 fs4 store4 "o/r" "abc").1.skip_scan = true := by
  decide

/-- C4, amended: for a release entry with scanned=true and a non-empty
scan_report that does not resolve to an existing file, and provided the
queried label does not occur as (a prefix of) any sha recorded in the
repository's releases, the decision returns skip_scan=false and the shared
store now carries the entry self-healed to scanned=false, scan_report=null. -/
theorem c4_self_heal_amended (cfg : Config) (fs : String → Bool) (store : Store)
    (orepo v : String) (meta : RepoMeta) (r : ReleaseRecord) (p : String)
    (hmeta : getA store orepo = some meta)
    (hrel : getA meta.releases v = some r)
    (hsc : r.scanned = true)
    (hrep : r.scan_report = some p)
    (hp : p ≠ "")
    (hres : resolveScanPath cfg fs p = none)
    (hnosha : ∀ q ∈ meta.releases, ∀ x ∈ q.2.sha, shaHit v x = false) :
    (checkExistingScan cfg fs store orepo v).1.skip_scan = false ∧
    ∃ meta', getA (checkExistingScan cfg fs store orepo v).2 orepo = some meta' ∧
      getA meta'.releases v = some { r with scanned := false, scan_report := none } := by
  have hval : validateExistingScan cfg fs r =
      (false, { r with scanned := false, scan_report := none }) := by
    simp [validateExistingScan, hsc, hrep, hp, hres]
  have hnosha1 : ∀ q ∈ setA meta.releases v { r with scanned := false, scan_report := none },
      ∀ x ∈ q.2.sha, shaHit v x = false := by
    intro q hq x hx
    rcases mem_setA _ _ _ _ hq with h' | h'
    · exact hnosha q h' x hx
    · refine hnosha (v, r) (getA_mem _ _ _ hrel) x ?_
      rw [h'] at hx
      simpa using hx
  obtain ⟨ho1, ho2⟩ := shaOuter_nomatch cfg fs v
    (setA meta.releases v { r with scanned := false, scan_report := none })
    ⟨false, none, r.latest, v⟩ hnosha1
  simp only [checkExistingScan, hmeta, hrel, hval]
  constructor
  · simp [ho1]
  · refine ⟨_, getA_setA_self _ _ _, ?_⟩
    simp only [ho2]
    exact getA_setA_self _ _ _

/-- Filesystem fixture on which no file exists. -/
def fsNone : String → Bool := fun _ => false

/-- Store fixture for the C4 witness: one scanned release whose artifact is
gone. -/
def store4w : Store :=
  [("o/r", ⟨none, [("v1", ⟨"N/A", true, some "c1", [some "c1"], true, some "/x/y.json"⟩)], none⟩)]

/-- C4, witness: the amended self-heal theorem at the concrete fixture. -/
theorem c4_witness :
    (checkExistingScan cfg4 fsNone store4w "o/r" "v1").1.skip_scan = false ∧
    ∃ meta', getA (checkExistingScan cfg4 fsNone store4w "o/r" "v1").2 "o/r" = some meta' ∧
      getA meta'.releases "v1" =
        some ⟨"N/A", false, some "c1", [some "c1"], true, none⟩ :=
  c4_self_heal_amended cfg4 fsNone store4w "o/r" "v1"
    ⟨none, [("v1", ⟨"N/A", true, some "c1", [some "c1"], true, some "/x/y.json"⟩)], none⟩
    ⟨"N/A", true, some "c1", [some "c1"], true, some "/x/y.json"⟩ "/x/y.json"
    (by decide) (by decide) (by decide) (by decide) (by decide) (by decide) (by decide)

/-! ## Resolver lemmas (claims C6, C7, C9 machinery) -/

/-- Decidable bound on a parsed date: unparseable dates pass, parsed dates
must lie strictly below the bound. -/
def parsedLT (x : Option Nat) (t : Nat) : Bool :=
  match x with
  | some u => u < t
  | none => true

theorem bestFold_small (pd : String → Option Nat) (t : Nat)
    (l : List (String × ReleaseRecord)) (acc : Option (String × Nat))
    (hl : ∀ q ∈ l, q.2.published_date ≠ "N/A" →
        parsedLT (pd (replaceZ q.2.published_date)) t = true)
    (hacc : acc = none ∨ ∃ nm t', acc = some (nm, t') ∧ t' < t) :
    List.foldl (bdStep pd) acc l = none ∨
      ∃ nm t', List.foldl (bdStep pd) acc l = some (nm, t') ∧ t' < t := by
  induction l generalizing acc with
  | nil => simpa using hacc
  | cons p rest ih =>
    rw [List.foldl_cons]
    refine ih _ (fun q hq => hl q (by simp [hq])) ?_
    by_cases hna : p.2.published_date = "N/A"
    · simpa [bdStep, hna] using hacc
    · cases hpd : pd (replaceZ p.2.published_date) with
      | none => simpa [bdStep, hna, hpd] using hacc
      | some t' =>
        have ht' : t' < t := by
          have := hl p (by simp) hna
          simpa [parsedLT, hpd] using this
        rcases hacc with h | ⟨nm, t0, h, ht0⟩
        · subst h
          right
          exact ⟨p.1, t', by simp [bdStep, hna, hpd], ht'⟩
        · subst h
          by_cases hgt : t' > t0
          · right
            exact ⟨p.1, t', by simp [bdStep, hna, hpd, hgt], ht'⟩
          · right
            exact ⟨nm, t0, by simp [bdStep, hna, hpd, hgt], ht0⟩

theorem bestFold_keep (pd : String → Option Nat) (t : Nat) (name : String)
    (l : List (String × ReleaseRecord))
    (hl : ∀ q ∈ l, q.2.published_date ≠ "N/A" →
        parsedLT (pd (replaceZ q.2.published_date)) t = true) :
    List.foldl (bdStep pd) (some (name, t)) l = some (name, t) := by
  induction l with
  | nil => rfl
  | cons p rest ih =>
    have hstep : bdStep pd (some (name, t)) p = some (name, t) := by
      by_cases hna : p.2.published_date = "N/A"
      · simp [bdStep, hna]
      · cases hpd : pd (replaceZ p.2.published_date) with
        | none => simp [bdStep, hna, hpd]
        | some t' =>
          have ht' : t' < t := by
            have := hl p (by simp) hna
            simpa [parsedLT, hpd] using this
          have hng : ¬ (t' > t) := by omega
          simp [bdStep, hna, hpd, hng]
    rw [List.foldl_cons, hstep]
    exact ih (fun q hq => hl q (by simp [hq]))

theorem bestByDate_eq (pd : String → Option Nat)
    (rels : List (String × ReleaseRecord)) (name : String) (rec : ReleaseRecord) (t : Nat)
    (hnodup : (rels.map Prod.fst).Nodup)
    (hrel : getA rels name = some rec)
    (hdate : rec.published_date ≠ "N/A")
    (hparse : pd (replaceZ rec.published_date) = some t)
    (hmax : ∀ q ∈ rels, q.1 ≠ name → q.2.published_date ≠ "N/A" →
        parsedLT (pd (replaceZ q.2.published_date)) t = true) :
    bestByDate pd rels = some (name, t) := by
  obtain ⟨l₁, l₂, heq, hk⟩ := getA_split _ _ _ hrel
  subst heq
  have hname2 : ∀ q ∈ l₂, q.1 ≠ name := by
    intro q hq he
    have hmem : name ∈ (l₂.map Prod.fst) := he ▸ List.mem_map_of_mem Prod.fst hq
    have h2 : (name :: l₂.map Prod.fst).Nodup := by
      rw [List.map_append, List.map_cons] at hnodup
      exact hnodup.of_append_right
    exact (List.nodup_cons.mp h2).1 hmem
  have hsmall1 : ∀ q ∈ l₁, q.2.published_date ≠ "N/A" →
      parsedLT (pd (replaceZ q.2.published_date)) t = true :=
    fun q hq => hmax q (by simp [hq]) (hk q hq)
  have hsmall2 : ∀ q ∈ l₂, q.2.published_date ≠ "N/A" →
      parsedLT (pd (replaceZ q.2.published_date)) t = true :=
    fun q hq => hmax q (by simp [hq]) (hname2 q hq)
  unfold bestByDate
  rw [List.foldl_append, List.foldl_cons]
  have hacc := bestFold_small pd t l₁ none hsmall1 (Or.inl rfl)
  have hstep : bdStep pd (List.foldl (bdStep pd) none l₁) (name, rec) = some (name, t) := by
    rcases hacc with h | ⟨nm, t0, h, ht0⟩
    · rw [h]
      simp [bdStep, hdate, hparse]
    · rw [h]
      have hgt : t > t0 := ht0
      simp [bdStep, hdate, hparse, hgt]
  rw [hstep]
  exact bestFold_keep pd t name l₂ hsmall2

theorem shaFindRelease_spec (version : String) (shas : List (Option String))
    (hall : ∀ x ∈ shas, x.isSome = true) :
    (shaFindRelease version shas = .ok none ∧ ∀ x ∈ shas, shaHit version x = false) ∨
    (∃ s, shaFindRelease version shas = .ok (some s) ∧ some s ∈ shas ∧
      shaHit version (some s) = true) := by
  induction shas with
  | nil => exact Or.inl ⟨rfl, by simp⟩
  | cons x rest ih =>
    cases x with
    | none => simpa using hall none (by simp)
    | some s =>
      by_cases hhit : ((version = s) || pyStartsWith s version) = true
      · right
        exact ⟨s, by simp [shaFindRelease, hhit], by simp, by simp [shaHit, hhit]⟩
      · have hrest := ih (fun x hx => hall x (by simp [hx]))
        rcases hrest with ⟨hfind, hnone⟩ | ⟨s', hfind, hmem, hh⟩
        · left
          refine ⟨by simp [shaFindRelease, hhit, hfind], ?_⟩
          intro x hx
          rcases List.mem_cons.mp hx with h' | h'
          · rw [h']
            simpa [shaHit] using hhit
          · exact hnone x h'
        · right
          exact ⟨s', by simp [shaFindRelease, hhit, hfind], by simp [hmem], hh⟩

theorem shaLookup_spec (version : String) (rels : List (String × ReleaseRecord))
    (hall : ∀ q ∈ rels, ∀ x ∈ q.2.sha, x.isSome = true)
    (hex : ∃ q ∈ rels, ∃ x ∈ q.2.sha, shaHit version x = true) :
    ∃ lbl r s, shaLookup version rels = .ok (some (lbl, s)) ∧ (lbl, r) ∈ rels ∧
      some s ∈ r.sha ∧ shaHit version (some s) = true := by
  induction rels with
  | nil => simp at hex
  | cons p rest ih =>
    obtain ⟨name, r⟩ := p
    rcases shaFindRelease_spec version r.sha (hall (name, r) (by simp)) with
      ⟨hfind, hnone⟩ | ⟨s, hfind, hmem, hh⟩
    · have hex' : ∃ q ∈ rest, ∃ x ∈ q.2.sha, shaHit version x = true := by
        rcases hex with ⟨q, hq, x, hx, hxh⟩
        rcases List.mem_cons.mp hq with h' | h'
        · exfalso
          rw [h'] at hx
          have hf := hnone x hx
          rw [hf] at hxh
          exact Bool.false_ne_true hxh
        · exact ⟨q, h', x, hx, hxh⟩
      obtain ⟨lbl, r', s, hlook, hmem, hsha, hh⟩ :=
        ih (fun q hq => hall q (by simp [hq])) hex'
      refine ⟨lbl, r', s, ?_, by simp [hmem], hsha, hh⟩
      simp [shaLookup, hfind, hlook, bind, Except.bind]
    · refine ⟨name, r, s, ?_, by simp, hmem, hh⟩
      simp [shaLookup, hfind, bind, Except.bind, pure, Except.pure]

/-! ## Claim C6: alias resolution determinism -/

/-- C6: resolving a reserved alias against a repository record selects the
release whose published_date parses to the most recent time among entries
with a parseable, non-"N/A" date, and returns its label and latest SHA.  The
date parser is the parseDate parameter of the embedding (a shallow model of
datetime.fromisoformat into a linearly ordered key). -/
theorem c6_alias_resolution (env : GHEnv) (owner repo version : String) (meta : Store)
    (m : RepoMeta) (name : String) (rec : ReleaseRecord) (t : Nat)
    (halias : version ∈ reservedAliases)
    (hmeta : getA meta (owner ++ "/" ++ repo) = some m)
    (hnodup : (m.releases.map Prod.fst).Nodup)
    (hname : name ≠ "")
    (hrel : getA m.releases name = some rec)
    (hdate : rec.published_date ≠ "N/A")
    (hparse : env.parseDate (replaceZ rec.published_date) = some t)
    (hmax : ∀ q ∈ m.releases, q.1 ≠ name → q.2.published_date ≠ "N/A" →
        parsedLT (env.parseDate (replaceZ q.2.published_date)) t = true) :
    resolveVersionAndSha env owner repo version meta = (name, rec.latest) := by
  have hbest := bestByDate_eq env.parseDate m.releases name rec t hnodup hrel hdate hparse hmax
  have hie : m.releases.isEmpty = false := by
    have := getA_some_ne_nil _ _ _ hrel
    simpa [List.isEmpty_iff] using this
  unfold resolveVersionAndSha resolveVersionAndShaCore
  simp [halias, hmeta, hie, hbest, hname, hrel, bind, Except.bind, pure, Except.pure]

/-- Date-key fixture used by the alias-resolution witness. -/
def parse6 : String → Option Nat := fun s =>
  if s = "2023-01-01" then some 1 else if s = "2024-06-01" then some 2 else none

/-- GitHub oracle fixture whose external calls all fail. -/
def gh6 : GHEnv := ⟨none, none, parse6⟩

/-- Store fixture of the alias-resolution scenario of the spec. -/
def store6 : Store :=
  [("o/r", ⟨none,
    [("v1", ⟨"2023-01-01", false, some "s1", [some "s1"], true, none⟩),
     ("v2", ⟨"2024-06-01", false, some "s2", [some "s2"], true, none⟩),
     ("v3", ⟨"N/A", false, some "s3", [some "s3"], true, none⟩)], none⟩)]

/-- C6, witness: with v1 dated 2023-01-01, v2 dated 2024-06-01 and v3 "N/A",
resolving "latest" returns v2 and its latest SHA. -/
theorem c6_witness : resolveVersionAndSha gh6 "o" "r" "latest" store6 = ("v2", some "s2") :=
  c6_alias_resolution gh6 "o" "r" "latest" store6
    ⟨none,
     [("v1", ⟨"2023-01-01", false, some "s1", [some "s1"], true, none⟩),
      ("v2", ⟨"2024-06-01", false, some "s2", [some "s2"], true, none⟩),
      ("v3", ⟨"N/A", false, some "s3", [some "s3"], true, none⟩)], none⟩
    "v2" ⟨"2024-06-01", false, some "s2", [some "s2"], true, none⟩ 2
    (by decide) (by decide) (by decide) (by decide) (by decide) (by decide)
    (by decide) (by decide)

/-! ## Claim C7: commit-SHA lookup by prefix -/

/-- C7: a non-alias version spec that is not a release label and equals, or
is a prefix of, some recorded sha resolves to that release's label together
with the full matched sha (sha entries are assumed non-null, as produced by
the release-set construction). -/
theorem c7_sha_lookup (env : GHEnv) (owner repo version : String) (meta : Store)
    (m : RepoMeta)
    (halias : version ∉ reservedAliases)
    (hmeta : getA meta (owner ++ "/" ++ repo) = some m)
    (hnolabel : getA m.releases version = none)
    (hall : ∀ q ∈ m.releases, ∀ x ∈ q.2.sha, x.isSome = true)
    (hex : ∃ q ∈ m.releases, ∃ x ∈ q.2.sha, shaHit version x = true) :
    ∃ lbl r s, resolveVersionAndSha env owner repo version meta = (lbl, some s) ∧
      (lbl, r) ∈ m.releases ∧ some s ∈ r.sha ∧
      (version = s ∨ pyStartsWith s version = true) := by
  obtain ⟨lbl, r, s, hlook, hmem, hsha, hh⟩ := shaLookup_spec version m.releases hall hex
  refine ⟨lbl, r, s, ?_, hmem, hsha, by simpa [shaHit] using hh⟩
  unfold resolveVersionAndSha resolveVersionAndShaCore
  simp [halias, hmeta, hnolabel, hlook, bind, Except.bind, pure, Except.pure]

/-- Store fixture with one release whose sha set holds a full commit sha. -/
def store7 : Store :=
  [("o/r", ⟨none,
    [("v1", ⟨"N/A", false, some "abcdef1234567890", [some "abcdef1234567890"], true, none⟩)],
    none⟩)]

/-- C7, witness: the prefix "abcdef1" resolves to v1 with the full sha. -/
theorem c7_witness :
    ∃ lbl r s, resolveVersionAndSha gh6 "o" "r" "abcdef1" store7 = (lbl, some s) ∧
      (lbl, r) ∈ [("v1", (⟨"N/A", false, some "abcdef1234567890", [some "abcdef1234567890"], true,
        none⟩ : ReleaseRecord))] ∧
      some s ∈ r.sha ∧ ("abcdef1" = s ∨ pyStartsWith s "abcdef1" = true) :=
  c7_sha_lookup gh6 "o" "r" "abcdef1" store7
    ⟨none,
     [("v1", ⟨"N/A", false, some "abcdef1234567890", [some "abcdef1234567890"], true, none⟩)],
     none⟩
    (by decide) (by decide) (by decide) (by decide) (by decide)

/-! ## Claim C9: the resolver never raises -/

/-- C9: the resolver is total: the enclosing try/except maps any internal
exception of the body to the degraded answer (version, null); a normal body
answer is passed through unchanged; and when the version is a reserved alias,
the store has no record and both external calls fail, the answer is the
last-resort fallback ("main", null). -/
theorem c9_resolver_total (env : GHEnv) (owner repo version : String) (meta : Store) :
    (∀ e, resolveVersionAndShaCore env owner repo version meta = .error e →
      resolveVersionAndSha env owner repo version meta = (version, none)) ∧
    (∀ p, resolveVersionAndShaCore env owner repo version meta = .ok p →
      resolveVersionAndSha env owner repo version meta = p) ∧
    (version ∈ reservedAliases → getA meta (owner ++ "/" ++ repo) = none →
      env.latestRelease = none → env.defaultBranch = none →
      resolveVersionAndSha env owner repo version meta = ("main", none)) := by
  refine ⟨?_, ?_, ?_⟩
  · intro e he
    unfold resolveVersionAndSha
    rw [he]
  · intro p hp
    unfold resolveVersionAndSha
    rw [hp]
  · intro h1 h2 h3 h4
    unfold resolveVersionAndSha resolveVersionAndShaCore aliasFallback
    simp [h1, h2, h3, h4]

/-- C9, witness: the last-resort fallback at a concrete alias query with an
empty store and failing external calls. -/
theorem c9_witness :
    resolveVersionAndSha ⟨none, none, fun _ => none⟩ "acme" "tool" "latest" [] = ("main", none) :=
  (c9_resolver_total ⟨none, none, fun _ => none⟩ "acme" "tool" "latest" []).2.2
    (by decide) rfl rfl rfl

/-! ## Orchestrator lemmas (claims C3, C10 machinery) -/

theorem repoMeta_eta (m : RepoMeta) :
    (⟨m.repository, m.releases, m.last_updated⟩ : RepoMeta) = m := rfl

theorem scanAction_reuse (env : ScanEnv) (cfg : Config) (store : Store)
    (fs : String → Bool) (ref owner repo version : String)
    (meta : RepoMeta) (rec : ReleaseRecord) (p P : String)
    (hparse : parseActionReference ref = (some owner, some repo, version))
    (ho : owner ≠ "") (hr : repo ≠ "")
    (hstats : env.repoStats = none)
    (halias : version ∉ reservedAliases)
    (hmeta : getA store (owner ++ "/" ++ repo) = some meta)
    (hrel : getA meta.releases version = some rec)
    (hsc : rec.scanned = true)
    (hrep : rec.scan_report = some p)
    (hresP : resolveScanPath cfg fs p = some P) :
    scanAction env cfg store fs ref false =
      ⟨⟨true, ref, "existing", env.render P, none, none, none, 0, 0⟩, store, fs, 0⟩ := by
  have hp : p ≠ "" := by
    intro h
    rw [h] at hresP
    simp [resolveScanPath] at hresP
  have hupdate : updateRepositoryMetadata env store (owner ++ "/" ++ repo) = store := by
    simp [updateRepositoryMetadata, hstats]
  have hval : validateExistingScan cfg fs rec = (true, rec) := by
    simp [validateExistingScan, hsc, hrep, hp, hresP]
  have hresolve : resolveVersionAndSha env.gh owner repo version store = (version, rec.latest) := by
    unfold resolveVersionAndSha resolveVersionAndShaCore
    simp [halias, hmeta, hrel, bind, Except.bind, pure, Except.pure]
  have hcheck : checkExistingScan cfg fs store (owner ++ "/" ++ repo) version =
      (⟨true, some P, rec.latest, version⟩, store) := by
    simp only [checkExistingScan, hmeta, hrel, hval, if_true]
    rw [setA_getA_self _ _ _ hrel, hrep]
    simp only [Option.getD_some]
    rw [hresP, repoMeta_eta, setA_getA_self _ _ _ hmeta]
  unfold scanAction
  rw [hparse]
  simp [ho, hr, hupdate, hresolve, hcheck]

/-! ## Claim C3: idempotent re-scan avoidance -/

/-- C3, amended: when the stored record already has release v1 scanned with
an artifact resolving to P, and the metadata refresh supplies no update, both
runs of the orchestrator invoke the AnalysisProvider zero times (not once),
and both return a successful outcome of scan_type "existing" whose report is
rendered from P; the store and filesystem are left unchanged. -/
theorem c3_rescan_avoidance (env : ScanEnv) (cfg : Config) (store : Store)
    (fs : String → Bool) (ref owner repo version : String)
    (meta : RepoMeta) (rec : ReleaseRecord) (p P : String)
    (hparse : parseActionReference ref = (some owner, some repo, version))
    (ho : owner ≠ "") (hr : repo ≠ "")
    (hstats : env.repoStats = none)
    (halias : version ∉ reservedAliases)
    (hmeta : getA store (owner ++ "/" ++ repo) = some meta)
    (hrel : getA meta.releases version = some rec)
    (hsc : rec.scanned = true)
    (hrep : rec.scan_report = some p)
    (hresP : resolveScanPath cfg fs p = some P) :
    (scanAction env cfg store fs ref false).aiCalls = 0 ∧
    (scanAction env cfg store fs ref false).outcome.success = true ∧
    (scanAction env cfg store fs ref false).outcome.scan_type = "existing" ∧
    (scanAction env cfg store fs ref false).outcome.report_path = env.render P ∧
    (scanAction env cfg store fs ref false).store = store ∧
    (scanAction env cfg (scanAction env cfg store fs ref false).store
      (scanAction env cfg store fs ref false).fs ref false).aiCalls = 0 ∧
    (scanAction env cfg (scanAction env cfg store fs ref false).store
      (scanAction env cfg store fs ref false).fs ref false).outcome.success = true ∧
    (scanAction env cfg (scanAction env cfg store fs ref false).store
      (scanAction env cfg store fs ref false).fs ref false).outcome.scan_type = "existing" ∧
    (scanAction env cfg (scanAction env cfg store fs ref false).store
      (scanAction env cfg store fs ref false).fs ref false).outcome.report_path =
      env.render P := by
  have h1 := scanAction_reuse env cfg store fs ref owner repo version meta rec p P
    hparse ho hr hstats halias hmeta hrel hsc hrep hresP
  simp [h1]

/-- Configuration fixture for the orchestrator runs. -/
def cfg3 : Config := ⟨"/out", "/cwd"⟩

/-- Filesystem fixture on which only the stored artifact exists. -/
def fs3 : String → Bool := fun s => s = "/x/y.json"

/-- Store fixture: acme/tool has release v1 scanned with that artifact. -/
def store3 : Store :=
  [("acme/tool",
    ⟨none, [("v1", ⟨"N/A", true, some "c1", [some "c1"], true, some "/x/y.json"⟩)], none⟩)]

/-- Orchestrator environment fixture: the metadata refresh yields nothing,
external resolver calls fail, and the renderer derives a report path from the
scan path. -/
def env3 : ScanEnv :=
  ⟨⟨none, none, fun _ => none⟩, none, "now", none, [], true, "", some "prompt",
   .error "no model", false,
   fun q => some ("/reports/" ++ q ++ ".md"), fun _ => none⟩

/-- C3, counterexample: on the claim's own scenario (record already scanned,
artifact present) the first run performs zero AnalysisProvider invocations,
not exactly one; both runs return scan_type "existing". -/
theorem c3_counterexample :
    (scanAction env3 cfg3 store3 fs3 "acme/tool@v1" false).aiCalls = 0 ∧
    ¬ (scanAction env3 cfg3 store3 fs3 "acme/tool@v1" false).aiCalls = 1 ∧
    (scanAction env3 cfg3 store3 fs3 "acme/tool@v1" false).outcome.scan_type = "existing" ∧
    (scanAction env3 cfg3 (scanAction env3 cfg3 store3 fs3 "acme/tool@v1" false).store
      (scanAction env3 cfg3 store3 fs3 "acme/tool@v1" false).fs "acme/tool@v1" false).aiCalls = 0 ∧
    (scanAction env3 cfg3 (scanAction env3 cfg3 store3 fs3 "acme/tool@v1" false).store
      (scanAction env3 cfg3 store3 fs3 "acme/tool@v1" false).fs "acme/tool@v1" false).outcome.scan_type =
      "existing" := by
  decide

/-- C3, witness for the amended theorem at the concrete fixture. -/
theorem c3_witness :
    (scanAction env3 cfg3 store3 fs3 "acme/tool@v1" false).aiCalls = 0 ∧
    (scanAction env3 cfg3 store3 fs3 "acme/tool@v1" false).outcome.success = true ∧
    (scanAction env3 cfg3 store3 fs3 "acme/tool@v1" false).outcome.scan_type = "existing" ∧
    (scanAction env3 cfg3 store3 fs3 "acme/tool@v1" false).outcome.report_path =
      env3.render "/x/y.json" ∧
    (scanAction env3 cfg3 store3 fs3 "acme/tool@v1" false).store = store3 ∧
    (scanAction env3 cfg3 (scanAction env3 cfg3 store3 fs3 "acme/tool@v1" false).store
      (scanAction env3 cfg3 store3 fs3 "acme/tool@v1" false).fs "acme/tool@v1" false).aiCalls = 0 ∧
    (scanAction env3 cfg3 (scanAction env3 cfg3 store3 fs3 "acme/tool@v1" false).store
      (scanAction env3 cfg3 store3 fs3 "acme/tool@v1" false).fs "acme/tool@v1" false).outcome.success =
      true ∧
    (scanAction env3 cfg3 (scanAction env3 cfg3 store3 fs3 "acme/tool@v1" false).store
      (scanAction env3 cfg3 store3 fs3 "acme/tool@v1" false).fs "acme/tool@v1" false).outcome.scan_type =
      "existing" ∧
    (scanAction env3 cfg3 (scanAction env3 cfg3 store3 fs3 "acme/tool@v1" false).store
      (scanAction env3 cfg3 store3 fs3 "acme/tool@v1" false).fs "acme/tool@v1" false).outcome.report_path =
      env3.render "/x/y.json" :=
  c3_rescan_avoidance env3 cfg3 store3 fs3 "acme/tool@v1" "acme" "tool" "v1"
    ⟨none, [("v1", ⟨"N/A", true, some "c1", [some "c1"], true, some "/x/y.json"⟩)], none⟩
    ⟨"N/A", true, some "c1", [some "c1"], true, some "/x/y.json"⟩ "/x/y.json" "/x/y.json"
    (by decide) (by decide) (by decide) rfl (by decide) (by decide) (by decide)
    (by decide) (by decide) (by decide)

/-! ## Claim C10: scan_action is total -/

/-- C10: the orchestrator entry point is total by construction (it always
returns an outcome record), and every outcome with success=false carries an
error message: failing stages (parse, download, extraction, validation,
analysis, save) each store a message, and each collaborator call catches its
own exceptions as in the source, so no exception escapes to the caller. -/
theorem c10_scan_action_total (env : ScanEnv) (cfg : Config) (store : Store)
    (fs : String → Bool) (ref : String) (skip_ai_scan : Bool)
    (h : (scanAction env cfg store fs ref skip_ai_scan).outcome.success = false) :
    (scanAction env cfg store fs ref skip_ai_scan).outcome.error.isSome = true := by
  rcases hp : parseActionReference ref with ⟨o, r, v⟩
  unfold scanAction at h ⊢
  rw [hp] at h ⊢
  cases o with
  | none => simp
  | some ow =>
    cases r with
    | none => simp
    | some rp =>
      by_cases h1 : ow = ""
      · simp [h1]
      · by_cases h2 : rp = ""
        · simp [h1, h2]
        · simp only [h1, h2, decide_False, Bool.or_self, Bool.false_or,
            if_false, ite_false] at h ⊢
          by_cases hskip : (checkExistingScan cfg fs
              (updateRepositoryMetadata env store (ow ++ "/" ++ rp)) (ow ++ "/" ++ rp)
              (resolveVersionAndSha env.gh ow rp v
                (updateRepositoryMetadata env store (ow ++ "/" ++ rp))).1).1.skip_scan = true
          · simp [hskip] at h
          · by_cases hsk2 : skip_ai_scan = true
            · simp [hskip, hsk2] at h
            · by_cases hfr : (performFreshScan env cfg fs
                  (ow ++ "/" ++ rp ++ "@" ++ (resolveVersionAndSha env.gh ow rp v
                    (updateRepositoryMetadata env store (ow ++ "/" ++ rp))).1)).1.success = true
              · simp [hskip, hsk2, hfr] at h
              · simp [hskip, hsk2, hfr]

/-- C10, witness: a malformed reference yields success=false, and the
theorem then gives an error message. -/
theorem c10_witness :
    (scanAction env3 cfg3 store3 fs3 "badref" false).outcome.error.isSome = true :=
  c10_scan_action_total env3 cfg3 store3 fs3 "badref" false (by decide)


end ActionsGuardHub
